import Mathlib

/-!
Shallow embedding of the MPI collective-communication teaching programs of
this repository (`src/main.cpp`, `src/test.cpp`, `src/analysis.cpp`).

Modelling conventions:
* C++ `double` values are modelled as exact rationals (`ℚ`); floating-point
  rounding is out of scope, so "equal up to floating-point summation order"
  becomes plain equality of rationals.
* `uint32_t` arithmetic of the pseudorandom generator is modelled on `ℕ`
  with explicit `% 2^32`.
* The collective operations (`MPI_Bcast`, `MPI_Reduce`, `MPI_Barrier`) are
  the external library; they are modelled by their documented contract:
  a broadcast delivers the coordinator's value to every rank, a sum-reduce
  delivers the rank-ordered sum of all contributions to the coordinator
  (and leaves the receive buffer untouched at every other rank).
-/

namespace MpiAvg

/-- One 32-bit word of the mt19937 seed-initialization sequence created by
`std::mt19937 generador(seed)`: `x 0 = seed mod 2^32`,
`x (i+1) = (1812433253 * (x i xor (x i >>> 30)) + (i+1)) mod 2^32`. -/
def seedWord (seed : ℕ) : ℕ → ℕ
  | 0 => seed % 4294967296
  | i + 1 =>
      let prev := seedWord seed i
      (1812433253 * (prev ^^^ (prev >>> 30)) + (i + 1)) % 4294967296

/-- The infinite mt19937 state sequence: words `0..623` are the seeded state,
and for `n ≥ 624` the twist recurrence
`x n = x (n-227) xor twist (x (n-624)) (x (n-623))`, where `twist a b`
combines the top bit of `a` (mask `0x80000000`) with the low 31 bits of `b`
(mask `0x7FFFFFFF`), shifts right by one and conditionally xors the constant
`0x9908B0DF`. -/
def mtWord (seed : ℕ) (n : ℕ) : ℕ :=
  if n < 624 then seedWord seed n
  else
    let y := (mtWord seed (n - 624) &&& 2147483648) + (mtWord seed (n - 623) &&& 2147483647)
    let y1 := if y % 2 = 1 then (y >>> 1) ^^^ 2567483615 else y >>> 1
    (mtWord seed (n - 227) ^^^ y1) % 4294967296
termination_by n
decreasing_by all_goals omega

/-- The mt19937 output tempering (`y ^= y>>11; y ^= (y<<7) & 0x9D2C5680;
y ^= (y<<15) & 0xEFC60000; y ^= y>>18`), on `uint32_t`. -/
def temper (y : ℕ) : ℕ :=
  let y1 := y ^^^ (y >>> 11)
  let y2 := y1 ^^^ ((y1 <<< 7) % 4294967296 &&& 2636928640)
  let y3 := y2 ^^^ ((y2 <<< 15) % 4294967296 &&& 4022730752)
  (y3 ^^^ (y3 >>> 18)) % 4294967296

/-- The `j`-th 32-bit draw of `std::mt19937` seeded with `seed`. -/
def mtOutput (seed : ℕ) (j : ℕ) : ℕ :=
  temper (mtWord seed (624 + j))

/-- The `i`-th value of `std::generate_canonical<double, 53>` on an
mt19937 engine: two 32-bit draws combined as
`(g (2i) + g (2i+1) * 2^32) / 2^64`, modelled exactly in `ℚ`. -/
def drawCanonical (seed i : ℕ) : ℚ :=
  ((mtOutput seed (2 * i) + mtOutput seed (2 * i + 1) * 4294967296 : ℕ) : ℚ)
    / 18446744073709551616

/-- Model of `generarValoresAleatorios(N, rank)` from `main.cpp`: seeds the engine
with `rank + 42` and draws `N` values of
`std::uniform_real_distribution<double>(0.0, 100.0)`, i.e. the `i`-th value
is the `i`-th canonical draw scaled by `100`. -/
def generarValoresAleatorios (N rank : ℕ) : List ℚ :=
  (List.range N).map (fun i => drawCanonical (rank + 42) i * 100)

/-- Model of `calcularSumaParcial` from `main.cpp`: plain ordered left-to-right
summation of the vector, accumulator starting at `0.0`. -/
def calcularSumaParcial (valores : List ℚ) : ℚ :=
  valores.foldl (fun suma valor => suma + valor) 0

/-- The value `MPI_Reduce(..., MPI_SUM, root = 0, ...)` delivers to the
coordinator: the contributions of ranks `0, 1, ..., P-1` combined by `+`
in rank order. -/
def mpiReduceSum {α : Type} [AddCommMonoid α] (P : ℕ) (contrib : ℕ → α) : α :=
  ((List.range P).map contrib).sum

/-- The value `MPI_Bcast(..., root = 0, ...)` delivers at rank `rank`: by the
broadcast contract every rank receives exactly the coordinator's value, with
no arithmetic applied in between. -/
def mpiBcast {α : Type} (rootValue : α) (rank : ℕ) : α :=
  rootValue

/-- The reduced total of `main.cpp`: every rank contributes
`sumaParcial = calcularSumaParcial(generarValoresAleatorios(N, rank))` and
`MPI_Reduce(MPI_SUM)` combines the `P` contributions at the coordinator. -/
def mainSumaTotal (P N : ℕ) : ℚ :=
  mpiReduceSum P (fun rank => calcularSumaParcial (generarValoresAleatorios N rank))

/-- Wrapper recording that the body of `generarValoresAleatorios(N, rank)`
reads neither the group size nor the wall clock: the two extra arguments
`groupSize` and `time` are simply not consumed by the source function, whose
only inputs are `N` and `rank`. -/
def generarValoresAleatoriosEnv (N rank groupSize time : ℕ) : List ℚ :=
  generarValoresAleatorios N rank

/-- The events the coordinator (rank 0) of `main.cpp` can execute, in the
order the source emits them. `abortRun` stands for `MPI_Abort`. -/
inductive MpiEvent : Type
  | barrier : MpiEvent
  | bcastN : MpiEvent
  | reduceSum : MpiEvent
  | bcastAvg : MpiEvent
  | abortRun : MpiEvent
deriving DecidableEq

/-- Holds (`true`) exactly on the collective operations (barrier, broadcast,
reduce); `MPI_Abort` is not a collective call. -/
def isCollective : MpiEvent → Bool
  | MpiEvent.barrier => true
  | MpiEvent.bcastN => true
  | MpiEvent.reduceSum => true
  | MpiEvent.bcastAvg => true
  | MpiEvent.abortRun => false

/-- The ordered trace of collective/abort events executed by rank 0 of
`main.cpp` on user input `N` with group size `P`: the barrier at line 92,
then (for `N ≤ 0`) `MPI_Abort`, or else the broadcast of `N`, the `P`
print-loop barriers, the pre-reduction barrier, the reduction, the broadcast
of the average, the `P` print-loop barriers and the final barrier. -/
def coordinatorTrace (N : ℤ) (P : ℕ) : List MpiEvent :=
  MpiEvent.barrier ::
    (if N ≤ 0 then [MpiEvent.abortRun]
     else [MpiEvent.bcastN] ++ List.replicate P MpiEvent.barrier
       ++ [MpiEvent.barrier, MpiEvent.reduceSum, MpiEvent.bcastAvg]
       ++ List.replicate P MpiEvent.barrier ++ [MpiEvent.barrier])

/-- The prefix of the coordinator's trace that runs before `MPI_Abort` is
triggered (the whole trace when no abort occurs). -/
def eventsBeforeAbort (N : ℤ) (P : ℕ) : List MpiEvent :=
  (coordinatorTrace N P).takeWhile (fun e => decide (e ≠ MpiEvent.abortRun))

/-- The per-rank pass flag of `test.cpp`:
`resultadoGlobal = todasLasPruebasPasan ? 1 : 0`. -/
def resultadoGlobal (pass : ℕ → Bool) (rank : ℕ) : ℕ :=
  if pass rank then 1 else 0

/-- The exit code of `test.cpp` at rank `rank` in a group of `P`, given each
rank's aggregate pass flag. `resultadoTotal` is initialized to `0` and then
passed to `MPI_Reduce(MPI_SUM, root = 0)`, whose receive buffer is
significant only at the coordinator: every other rank keeps the
initialization. The process then returns
`(resultadoTotal == numProcs) ? 0 : 1`. -/
def testExitCode (P : ℕ) (pass : ℕ → Bool) (rank : ℕ) : ℕ :=
  let resultadoTotal : ℕ :=
    if rank = 0 then mpiReduceSum P (resultadoGlobal pass) else 0
  if resultadoTotal = P then 0 else 1

/-- Constant `valorOriginal` of `testBroadcast` in `test.cpp`. -/
def valorOriginal : ℤ := 42

/-- State of `valorRecibido` in `testBroadcast` just before the broadcast: the
coordinator sets it to `valorOriginal`, every other rank still holds `0`. -/
def valorRecibidoInit (rank : ℕ) : ℤ :=
  if rank = 0 then valorOriginal else 0

/-- The check of `testBroadcast` at rank `rank`: after
`MPI_Bcast(&valorRecibido, 1, MPI_INT, 0, ...)` the rank compares the value
it received with `valorOriginal`. -/
def testBroadcastResultado (rank : ℕ) : Bool :=
  decide (mpiBcast (valorRecibidoInit 0) rank = valorOriginal)

/-- Contribution `localValue = rank + 1` of robustness Test 3 in `analysis.cpp`
(`MPI_INT`, modelled as mathematical integers: no overflow for the group
sizes involved). -/
def robustnessLocalValue (rank : ℕ) : ℤ :=
  (rank : ℤ) + 1

/-- The reduced `globalSum` of robustness Test 3: `rank + 1` summed over all
`P` ranks at the coordinator. -/
def robustnessGlobalSum (P : ℕ) : ℤ :=
  mpiReduceSum P robustnessLocalValue

/-- Model of `elementsPerProc` from `strongScalingAnalysis` in `analysis.cpp`:
`N / numProcs` in integer division, incremented when the division leaves a
remainder. -/
def elementsPerProc (N numProcs : ℕ) : ℕ :=
  if N % numProcs ≠ 0 then N / numProcs + 1 else N / numProcs

/-- The local dataset of rank `rank` in `strongScalingAnalysis`: the
generation loop is the same engine (`mt19937(rank + 42)`) and distribution
(`uniform_real_distribution(0.0, 100.0)`) as `generarValoresAleatorios`,
drawing `elementsPerProc` values. -/
def strongLocalData (N P rank : ℕ) : List ℚ :=
  generarValoresAleatorios (elementsPerProc N P) rank

/-- The reduced `globalSum` of `strongScalingAnalysis`. -/
def strongGlobalSum (N P : ℕ) : ℚ :=
  mpiReduceSum P (fun rank => calcularSumaParcial (strongLocalData N P rank))

/-- The average printed by the coordinator in `strongScalingAnalysis`:
`avg = globalSum / N`, dividing by the requested total `N`. -/
def strongAvg (N P : ℕ) : ℚ :=
  strongGlobalSum N P / (N : ℚ)

/-- Model of `totalTime = compTime + commTime` from
`communicationVsComputationAnalysis` in `analysis.cpp`. -/
def totalTime (compTime commTime : ℚ) : ℚ :=
  compTime + commTime

/-- Model of `compRatio = (compTime / totalTime) * 100`. -/
def compRatio (compTime commTime : ℚ) : ℚ :=
  compTime / totalTime compTime commTime * 100

/-- Model of `commRatio = (commTime / totalTime) * 100`. -/
def commRatio (compTime commTime : ℚ) : ℚ :=
  commTime / totalTime compTime commTime * 100

/-- One iteration of the loop of robustness Test 2 in `analysis.cpp`, with
the values of `(localSum, globalSum)` left over from the previous iteration
passed in explicitly: the body re-initializes `localSum` to `0.0`, folds the
unchanged `data` into it, reduces, and broadcasts the reduced sum — so the
incoming state is never read. -/
def test2Body (P : ℕ) (dataOf : ℕ → List ℚ) (rank : ℕ) (prev : ℚ × ℚ) :
    ℚ × ℚ :=
  let localSum := calcularSumaParcial (dataOf rank)
  let globalSum :=
    mpiBcast (mpiReduceSum P (fun r => calcularSumaParcial (dataOf r))) rank
  (localSum, globalSum)

/-- The list of broadcast global sums observed at rank `rank` over `k`
iterations of the Test 2 loop, threading the `(localSum, globalSum)` state
from one iteration to the next exactly as the process memory does. -/
def test2Results (P : ℕ) (dataOf : ℕ → List ℚ) (rank : ℕ) :
    ℕ → ℚ × ℚ → List ℚ
  | 0, _ => []
  | k + 1, st =>
      let st' := test2Body P dataOf rank st
      st'.2 :: test2Results P dataOf rank k st'

/-! Helper lemmas shared by several of the theorems below. -/

/-- The rank-ordered reduction agrees with the unordered sum over the rank
set. -/
lemma mpiReduceSum_eq_sum {α : Type} [AddCommMonoid α] (P : ℕ) (f : ℕ → α) :
    mpiReduceSum P f = ∑ r ∈ Finset.range P, f r := by
  induction P with
  | zero => rfl
  | succ n ih =>
      rw [Finset.sum_range_succ, ← ih]
      simp [mpiReduceSum, List.range_succ]

/-- Every 32-bit draw of the generator is below `2^32`. -/
lemma mtOutput_lt (seed j : ℕ) : mtOutput seed j < 4294967296 := by
  unfold mtOutput temper
  exact Nat.mod_lt _ (by norm_num)

/-- Canonical draws are nonnegative. -/
lemma drawCanonical_nonneg (seed i : ℕ) : 0 ≤ drawCanonical seed i := by
  unfold drawCanonical
  positivity

/-- Canonical draws are strictly below one. -/
lemma drawCanonical_lt_one (seed i : ℕ) : drawCanonical seed i < 1 := by
  unfold drawCanonical
  rw [div_lt_one (by norm_num)]
  have h0 := mtOutput_lt seed (2 * i)
  have h1 := mtOutput_lt seed (2 * i + 1)
  have hlt : mtOutput seed (2 * i) + mtOutput seed (2 * i + 1) * 4294967296
      < 18446744073709551616 := by omega
  exact_mod_cast hlt

/-- Every value produced by `generarValoresAleatorios` lies in `[0, 100)`. -/
lemma generarValores_mem_range (N rank : ℕ) (v : ℚ)
    (hv : v ∈ generarValoresAleatorios N rank) : 0 ≤ v ∧ v < 100 := by
  unfold generarValoresAleatorios at hv
  obtain ⟨i, _, rfl⟩ := List.mem_map.mp hv
  constructor
  · have := drawCanonical_nonneg (rank + 42) i
    positivity
  · have h := drawCanonical_lt_one (rank + 42) i
    nlinarith [drawCanonical_nonneg (rank + 42) i]

/-- Function `generarValoresAleatorios` produces exactly `N` values. -/
lemma generarValores_length (N rank : ℕ) :
    (generarValoresAleatorios N rank).length = N := by
  simp [generarValoresAleatorios]

/-- Sandwich for the strong-scaling per-rank element count: `P` ranks with
`elementsPerProc` elements each cover at least `N` and overshoot by less
than `P`. -/
lemma elementsPerProc_bounds (N P : ℕ) (hP : 0 < P) :
    N ≤ P * elementsPerProc N P ∧ P * elementsPerProc N P < N + P := by
  have hdm : P * (N / P) + N % P = N := Nat.div_add_mod N P
  have hm : N % P < P := Nat.mod_lt _ hP
  unfold elementsPerProc
  by_cases h : N % P = 0
  · simp only [h, ne_eq, not_true_eq_false, if_false]
    constructor
    · linarith [hdm, h]
    · linarith [hdm, h]
  · simp only [ne_eq, h, not_false_eq_true, if_true, Nat.mul_add, Nat.mul_one]
    have hpos : 0 < N % P := Nat.pos_of_ne_zero h
    constructor
    · linarith [hdm]
    · linarith [hdm]

/-- Gauss identity for the rank-plus-one reduction, doubled to stay in
exact integers. -/
lemma robustnessGlobalSum_double (P : ℕ) :
    2 * robustnessGlobalSum P = (P : ℤ) * ((P : ℤ) + 1) := by
  induction P with
  | zero => rfl
  | succ n ih =>
      have hstep : robustnessGlobalSum (n + 1)
          = robustnessGlobalSum n + ((n : ℤ) + 1) := by
        simp [robustnessGlobalSum, mpiReduceSum, List.range_succ,
          robustnessLocalValue]
      rw [hstep]
      push_cast
      ring_nf
      ring_nf at ih
      linarith [ih]

/-! The claims. -/

/-- C1: for every group size `P ≥ 1` and positive per-participant count
`N`, the global result delivered at the coordinator by the sum-reduction
equals the sum over all `P` participants of `calcularSumaParcial` of that
participant's local dataset — exactly, in the rational model that abstracts
the implementation-defined combination order of the reduction. -/
theorem mainSumaTotal_eq_sum_of_partials (P N : ℕ) (hP : 1 ≤ P) (hN : 0 < N) :
    mainSumaTotal P N
      = ∑ rank ∈ Finset.range P,
          calcularSumaParcial (generarValoresAleatorios N rank) :=
  mpiReduceSum_eq_sum P _

theorem mainSumaTotal_eq_sum_of_partials_witness :
    1 ≤ 2 ∧ 0 < 3 ∧
      mainSumaTotal 2 3
        = calcularSumaParcial (generarValoresAleatorios 3 0)
            + calcularSumaParcial (generarValoresAleatorios 3 1) :=
  ⟨by decide, by decide,
    (mainSumaTotal_eq_sum_of_partials 2 3 (by decide) (by decide)).trans
      (by simp [Finset.sum_range_succ])⟩

/-- C2 counterexample: with user input `N = 0` and group size `1` the
coordinator does trigger `MPI_Abort`, but a collective operation — the
synchronization barrier of `main.cpp` line 92 — has already executed before
the abort is triggered, so the abort does not precede every collective
call. -/
theorem coordinatorTrace_collective_before_abort :
    MpiEvent.abortRun ∈ coordinatorTrace 0 1 ∧
      (eventsBeforeAbort 0 1).any isCollective = true := by
  decide

/-- C2 amended: on non-positive user input `N` the coordinator aborts the
whole group before any broadcast or reduce executes — its event trace is
exactly the initial barrier followed by `MPI_Abort` — though after that one
barrier collective has already run. -/
theorem coordinatorTrace_abort_after_single_barrier (N : ℤ) (P : ℕ)
    (h : N ≤ 0) :
    coordinatorTrace N P = [MpiEvent.barrier, MpiEvent.abortRun] := by
  simp [coordinatorTrace, h]

theorem coordinatorTrace_abort_after_single_barrier_witness :
    (-7 : ℤ) ≤ 0 ∧
      coordinatorTrace (-7) 4 = [MpiEvent.barrier, MpiEvent.abortRun] :=
  ⟨by decide, coordinatorTrace_abort_after_single_barrier (-7) 4 (by decide)⟩

/-- C3, divergence evaluated on the failing input: in a group of `P = 2`
with every participant's checks passing, the coordinator exits with code
`0` as the claim states, but rank 1 exits with code `1`: the reduction
defines the aggregated pass count only at the coordinator, so rank 1
compares its untouched initialization `0` with the group size. -/
theorem testExitCode_nonroot_one_despite_pass :
    testExitCode 2 (fun _ => true) 0 = 0 ∧
      testExitCode 2 (fun _ => true) 1 = 1 := by
  decide

/-- C4: the generator's output is fully determined by `(N, rank)` — the
`Env` wrapper records that the source body reads neither the group size nor
the wall clock — it produces exactly `N` values, and every produced value
lies in the half-open interval `[0, 100)`. -/
theorem generarValores_deterministic_length_range
    (N rank P₁ t₁ P₂ t₂ : ℕ) :
    generarValoresAleatoriosEnv N rank P₁ t₁
        = generarValoresAleatoriosEnv N rank P₂ t₂ ∧
      (generarValoresAleatorios N rank).length = N ∧
      (generarValoresAleatorios N rank).all
          (fun v => decide (0 ≤ v ∧ v < 100)) = true := by
  refine ⟨rfl, generarValores_length N rank, ?_⟩
  rw [List.all_eq_true]
  intro v hv
  exact decide_eq_true (generarValores_mem_range N rank v hv)

/-- C5: when every rank `r` contributes the integer `r + 1`, the
sum-reduction over `P ≥ 1` participants delivers exactly the triangular
number `P * (P + 1) / 2` at the coordinator, in exact integer
arithmetic. -/
theorem robustnessGlobalSum_eq_triangular (P : ℕ) (hP : 1 ≤ P) :
    robustnessGlobalSum P = (P : ℤ) * ((P : ℤ) + 1) / 2 := by
  have h2 := robustnessGlobalSum_double P
  rw [← h2, Int.mul_ediv_cancel_left _ (by norm_num)]

theorem robustnessGlobalSum_eq_triangular_witness :
    1 ≤ 4 ∧
      robustnessGlobalSum 4 = ((4 : ℕ) : ℤ) * (((4 : ℕ) : ℤ) + 1) / 2 :=
  ⟨by decide, robustnessGlobalSum_eq_triangular 4 (by decide)⟩

/-- C6: the strong-scaling per-participant element count — integer
division `N / P` incremented by one when the remainder is nonzero — equals
the mathematical ceiling of `N / P` for every total `N ≥ 1` and group size
`P ≥ 1`. -/
theorem elementsPerProc_eq_ceil (N P : ℕ) (hN : 1 ≤ N) (hP : 1 ≤ P) :
    (elementsPerProc N P : ℤ) = ⌈(N : ℚ) / (P : ℚ)⌉ := by
  obtain ⟨hlo, hhi⟩ := elementsPerProc_bounds N P hP
  have hP0 : (0 : ℚ) < (P : ℚ) := by exact_mod_cast hP
  have hlo' : (N : ℚ) ≤ (P : ℚ) * (elementsPerProc N P : ℚ) := by
    exact_mod_cast hlo
  have hhi' : (P : ℚ) * (elementsPerProc N P : ℚ) < (N : ℚ) + (P : ℚ) := by
    exact_mod_cast hhi
  rw [eq_comm, Int.ceil_eq_iff]
  constructor
  · rw [lt_div_iff₀ hP0]
    push_cast
    linarith
  · rw [div_le_iff₀ hP0]
    push_cast
    linarith

theorem elementsPerProc_eq_ceil_witness :
    1 ≤ 10 ∧ 1 ≤ 3 ∧
      (elementsPerProc 10 3 : ℤ) = ⌈((10 : ℕ) : ℚ) / ((3 : ℕ) : ℚ)⌉ :=
  ⟨by decide, by decide, elementsPerProc_eq_ceil 10 3 (by decide) (by decide)⟩

/-- C7: broadcast round-trip — for any integer payload `v` (and any
rational payload `q`), every rank receives from the broadcast exactly the
value the coordinator supplied, with no arithmetic applied in between, and
the `testBroadcast` check of `test.cpp` (coordinator sets `42`, all ranks
compare what they receive with `42`) succeeds at every rank. -/
theorem mpiBcast_roundtrip (v : ℤ) (q : ℚ) (rank : ℕ) :
    mpiBcast v rank = v ∧ mpiBcast q rank = q ∧
      testBroadcastResultado rank = true := by
  refine ⟨rfl, rfl, ?_⟩
  simp [testBroadcastResultado, mpiBcast, valorRecibidoInit, valorOriginal]

/-- C8: running the reduce-then-broadcast round of robustness Test 2 `k`
times with the same fixed local data at every participant yields the same
global sum in every one of the `k` iterations, whatever `(localSum,
globalSum)` state is carried in: the observed results are `k` copies of the
one reduced-and-broadcast sum. -/
theorem test2Results_constant (P : ℕ) (dataOf : ℕ → List ℚ) (rank k : ℕ)
    (st : ℚ × ℚ) :
    test2Results P dataOf rank k st
      = List.replicate k
          (mpiBcast
            (mpiReduceSum P (fun r => calcularSumaParcial (dataOf r)))
            rank) := by
  induction k generalizing st with
  | zero => rfl
  | succ n ih => simp [test2Results, test2Body, ih, List.replicate_succ]

/-- C9: for any measured round whose total time `compTime + commTime` is
positive, the two reported percentages `(compTime / totalTime) * 100` and
`(commTime / totalTime) * 100` sum to exactly `100` (exact in the rational
model, i.e. up to floating-point rounding). -/
theorem ratios_sum_to_hundred (compTime commTime : ℚ)
    (h : 0 < totalTime compTime commTime) :
    compRatio compTime commTime + commRatio compTime commTime = 100 := by
  have hne : compTime + commTime ≠ 0 := by
    unfold totalTime at h
    exact ne_of_gt h
  unfold compRatio commRatio totalTime
  field_simp
  ring

theorem ratios_sum_to_hundred_witness :
    0 < totalTime 3 1 ∧ compRatio 3 1 + commRatio 3 1 = 100 :=
  ⟨by norm_num [totalTime], ratios_sum_to_hundred 3 1 (by norm_num [totalTime])⟩

/-- C10: in the strong-scaling analysis, whenever `P` does not divide `N`,
every rank generates `elementsPerProc N P = ⌈N / P⌉` elements, the group
therefore sums strictly more than `N` elements in total, and yet the
average printed at the coordinator is the global sum divided by the
requested total `N`, not by the number of elements actually summed. -/
theorem strongScaling_avg_divides_by_requested_total (N P rank : ℕ)
    (hN : 1 ≤ N) (hP : 1 ≤ P) (hnd : ¬ P ∣ N) :
    (strongLocalData N P rank).length = elementsPerProc N P ∧
      N < P * elementsPerProc N P ∧
      strongAvg N P = strongGlobalSum N P / (N : ℚ) := by
  refine ⟨generarValores_length _ rank, ?_, rfl⟩
  have hmod : N % P ≠ 0 := fun h0 => hnd (Nat.dvd_iff_mod_eq_zero.mpr h0)
  have hdm : P * (N / P) + N % P = N := Nat.div_add_mod N P
  have hm : N % P < P := Nat.mod_lt _ (by omega)
  unfold elementsPerProc
  rw [if_pos hmod, Nat.mul_add, Nat.mul_one]
  linarith [hdm, hm]

theorem strongScaling_avg_divides_by_requested_total_witness :
    1 ≤ 10 ∧ 1 ≤ 3 ∧ ¬ (3 : ℕ) ∣ 10 ∧
      ((strongLocalData 10 3 0).length = elementsPerProc 10 3 ∧
        10 < 3 * elementsPerProc 10 3 ∧
        strongAvg 10 3 = strongGlobalSum 10 3 / ((10 : ℕ) : ℚ)) :=
  ⟨by decide, by decide, by norm_num,
    strongScaling_avg_divides_by_requested_total 10 3 0 (by decide) (by decide)
      (by norm_num)⟩

end MpiAvg
